import Mathlib

/-!
Verification development for the litemem repository (TypeScript).

The engine state is modelled as explicit functional data:
* SQL rows of the `memories` table become a `List MemoryEntry`
  (`INSERT OR REPLACE` keeps ids unique, `UPDATE ... WHERE id = ?`
  patches every row with a matching id, `DELETE` filters).
* JavaScript numbers are modelled as exact numbers: timestamps and
  vector components as rationals (`floatTimeStamp : ℚ`), instants in
  milliseconds as `ℤ` (an ISO-8601 string is identified with the
  instant it denotes, the encoding being injective), and cosine
  similarity scores as real numbers, since `Math.sqrt` is modelled by
  `Real.sqrt`.
* JavaScript truthiness tests on numbers and strings are translated
  literally: a numeric guard also fails on the value 0, a string guard
  also fails on the empty string.
* External collaborators (the chat LLM, the embedding provider, the
  timestamp grammar of `parseSessionTimestamp`, id generation and the
  wall clock) are oracle parameters of the definitions; everything the
  repository itself computes is translated from the source.
-/

namespace LiteMem

/-- Chat message role, from the union type `MessageRole` in
`types/messages.ts`. -/
inductive Role where
  | user
  | assistant
  | system
deriving DecidableEq, Repr

/-- Raw input message (`Message` in `types/messages.ts`).  `timeStamp`
is the session marker string; optional speaker fields default to the
empty string. -/
structure Message where
  role : Role
  content : String
  timeStamp : String
  speakerId : String := ""
  speakerName : String := ""
deriving DecidableEq, Repr

/-- Normalized message (`NormalizedMessage` in `types/messages.ts`).
The bumped instant assigned by the normalizer is kept as milliseconds
since the epoch (`Date.getTime` units); `sessionTime` is the original
marker. -/
structure NormalizedMessage where
  role : Role
  content : String
  timeStamp : ℤ
  speakerId : String := ""
  speakerName : String := ""
  sessionTime : String
  weekday : String
  sequenceNumber : Option ℕ := none
deriving DecidableEq, Repr

/-- Extracted fact from the LLM (`ExtractedFact` in
`types/messages.ts`), after `cleanResponse` coerced `source_id` with
`Number(...)`. -/
structure ExtractedFact where
  sourceId : ℤ
  fact : String
deriving DecidableEq, Repr

/-- `UpdateCandidate` in `types/memory.ts`: one entry of a record
update queue.  The score is a stored similarity value. -/
structure UpdateCandidate where
  id : String
  score : ℝ

/-- `MemoryEntry` in `types/memory.ts`, together with the optional
embedding column of the `memories` row (`getAll(true)` exposes it). -/
structure MemoryEntry where
  id : String
  timeStamp : ℤ
  floatTimeStamp : ℚ
  weekday : String
  category : String
  subcategory : String
  memoryClass : String
  memory : String
  originalMemory : String
  compressedMemory : String
  topicId : Option ℤ
  topicSummary : String
  speakerId : String
  speakerName : String
  hitTime : ℚ
  updateQueue : List UpdateCandidate
  embedding : Option (List ℚ)

/-- Inclusive numeric range of the `floatTimeStamp` retrieval filter
(`RetrieveFilters` in `types/messages.ts`). -/
structure FloatRange where
  gte : Option ℚ := none
  lte : Option ℚ := none

/-- `RetrieveFilters` in `types/messages.ts`. -/
structure RetrieveFilters where
  floatTimeStamp : Option FloatRange := none
  speakerId : Option String := none
  category : Option String := none

/-- `SearchResult` in `storage` (vector store search hit). -/
structure SearchResult where
  id : String
  score : ℝ
  payload : MemoryEntry

/-! ## Vector store operations (`VectorStore` in `liteMem.ts`) -/

/-- `VectorStore.insert`: `INSERT OR REPLACE` keyed on `id`; any
existing row with the same id is replaced, and the row stores the
given embedding. -/
def insertEntry (store : List MemoryEntry) (entry : MemoryEntry)
    (embedding : List ℚ) : List MemoryEntry :=
  store.filter (fun r => r.id ≠ entry.id) ++
    [{ entry with embedding := some embedding }]

/-- Field-level patch accepted by `VectorStore.update`: exactly the
columns the source `update` can SET (`memory`, `category`,
`subcategory`, `hitTime`, `updateQueue`, and the embedding argument).
`originalMemory` and the identity fields cannot appear here. -/
structure UpdatePatch where
  memory : Option String := none
  category : Option String := none
  subcategory : Option String := none
  hitTime : Option ℚ := none
  updateQueue : Option (List UpdateCandidate) := none
  embedding : Option (List ℚ) := none

/-- Applies an `UpdatePatch` to one row: each present field is SET,
every other column keeps its value. -/
def applyPatch (p : UpdatePatch) (r : MemoryEntry) : MemoryEntry :=
  { r with
    memory := p.memory.getD r.memory
    category := p.category.getD r.category
    subcategory := p.subcategory.getD r.subcategory
    hitTime := p.hitTime.getD r.hitTime
    updateQueue := p.updateQueue.getD r.updateQueue
    embedding := match p.embedding with
      | some e => some e
      | none => r.embedding }

/-- `VectorStore.update`: `UPDATE memories SET ... WHERE id = ?`,
patching every row whose id matches. -/
def updateEntry (store : List MemoryEntry) (id : String)
    (p : UpdatePatch) : List MemoryEntry :=
  store.map (fun r => if r.id = id then applyPatch p r else r)

/-- `VectorStore.delete`: `DELETE FROM memories WHERE id = ?`. -/
def deleteEntry (store : List MemoryEntry) (id : String) :
    List MemoryEntry :=
  store.filter (fun r => r.id ≠ id)

/-- Dot product loop of `VectorStore.cosineSimilarity` (the source
iterates over indices of `a`; the loop coincides with `zipWith` when
the vectors have equal length, and the source throws on a length
mismatch, so theorems about stores restrict to equal-length
embeddings). -/
def dotProduct (a b : List ℚ) : ℚ :=
  (a.zipWith (· * ·) b).sum

/-- Sum of squares accumulated by the same loop. -/
def normSq (a : List ℚ) : ℚ :=
  (a.map (fun x => x * x)).sum

/-- `VectorStore.cosineSimilarity`: `dot / (Math.sqrt(normA) *
Math.sqrt(normB))`, returning 0 when the magnitude is 0. -/
noncomputable def cosineSimilarity (a b : List ℚ) : ℝ :=
  let magnitude : ℝ := Real.sqrt (normSq a) * Real.sqrt (normSq b)
  if magnitude = 0 then 0 else (dotProduct a b : ℝ) / magnitude

/-- The `gte` branch of the filter check in `VectorStore.search`:
`if (filters.floatTimeStamp?.gte && entry.floatTimeStamp < gte)
continue`.  The JavaScript truthiness test makes a 0 bound inert. -/
def gteViolated (f : RetrieveFilters) (e : MemoryEntry) : Bool :=
  match f.floatTimeStamp with
  | none => false
  | some r =>
    match r.gte with
    | none => false
    | some g => decide (g ≠ 0) && decide (e.floatTimeStamp < g)

/-- The `lte` branch of the filter check in `VectorStore.search`. -/
def lteViolated (f : RetrieveFilters) (e : MemoryEntry) : Bool :=
  match f.floatTimeStamp with
  | none => false
  | some r =>
    match r.lte with
    | none => false
    | some l => decide (l ≠ 0) && decide (l < e.floatTimeStamp)

/-- The `speakerId` equality branch of the filter check (an empty
string is falsy and thus inert). -/
def speakerViolated (f : RetrieveFilters) (e : MemoryEntry) : Bool :=
  match f.speakerId with
  | none => false
  | some s => decide (s ≠ "") && decide (e.speakerId ≠ s)

/-- The `category` equality branch of the filter check. -/
def categoryViolated (f : RetrieveFilters) (e : MemoryEntry) : Bool :=
  match f.category with
  | none => false
  | some c => decide (c ≠ "") && decide (e.category ≠ c)

/-- All four filter branches of `VectorStore.search`, applied only
when a filter object was passed at all. -/
def passesFilters (f? : Option RetrieveFilters) (e : MemoryEntry) :
    Bool :=
  match f? with
  | none => true
  | some f =>
    !gteViolated f e && !lteViolated f e &&
      !speakerViolated f e && !categoryViolated f e

/-- Descending-score comparison used by
`scored.sort((a, b) => b.score - a.score)`. -/
def scoreGe (a b : SearchResult) : Prop := b.score ≤ a.score

noncomputable instance : DecidableRel scoreGe :=
  fun a b => Real.decidableLE b.score a.score

instance : IsTotal SearchResult scoreGe :=
  ⟨fun a b => le_total b.score a.score⟩

instance : IsTrans SearchResult scoreGe :=
  ⟨fun _ _ _ h h' => le_trans h' h⟩

/-- `VectorStore.search`: score every row that has an embedding and
passes the filters, sort by score descending, return the first
`limit` hits. -/
noncomputable def search (store : List MemoryEntry) (q : List ℚ)
    (limit : ℕ) (f? : Option RetrieveFilters) : List SearchResult :=
  let scored := store.filterMap (fun e =>
    match e.embedding with
    | none => none
    | some emb =>
      if passesFilters f? e then
        some ⟨e.id, cosineSimilarity q emb, e⟩
      else none)
  (scored.insertionSort scoreGe).take limit

/-! ## Message normalizer (`MessageNormalizer` in the utils module)

`parseSessionTimestamp` combines a regular-expression grammar with the
permissive `new Date(...)` fallback of the JavaScript runtime; it is
abstracted as an oracle `parse : String → Option (ℤ × String)`
returning the parsed instant (milliseconds) and weekday, `none` when
both attempts fail (the source then throws). -/

/-- The `lastTimestampMap` field: an insert-or-replace map from session
marker to the last assigned instant.  Represented as an association
list where the most recent binding shadows older ones. -/
def setLast (m : List (String × ℤ)) (k : String) (v : ℤ) :
    List (String × ℤ) :=
  (k, v) :: m

/-- `Map.get` on `lastTimestampMap`. -/
def getLast (m : List (String × ℤ)) (k : String) : Option ℤ :=
  (m.find? (fun p => p.1 = k)).map (·.2)

/-- `MessageNormalizer.normalizeMessages`, one message at a time.
Per message: reject an empty `timeStamp` (the falsy check), parse the
marker, then either take the parsed instant (first use of the marker)
or the previously assigned instant plus `offsetMs`.  The map state is
threaded through and returned even on error, because the JavaScript
instance keeps mutations made before the throw. -/
def normalizeMessages (parse : String → Option (ℤ × String))
    (offsetMs : ℤ) (m : List (String × ℤ)) :
    List Message → List (String × ℤ) × Except String (List NormalizedMessage)
  | [] => (m, .ok [])
  | msg :: rest =>
    if msg.timeStamp = "" then
      (m, .error "Each message should contain a timeStamp field")
    else
      match parse msg.timeStamp with
      | none => (m, .error "Failed to parse session time format")
      | some (baseDate, weekday) =>
        let newDate : ℤ :=
          match getLast m msg.timeStamp with
          | none => baseDate
          | some lastDate => lastDate + offsetMs
        let m' := setLast m msg.timeStamp newDate
        let enriched : NormalizedMessage :=
          { role := msg.role
            content := msg.content
            timeStamp := newDate
            speakerId := msg.speakerId
            speakerName := msg.speakerName
            sessionTime := msg.timeStamp
            weekday := weekday }
        match normalizeMessages parse offsetMs m' rest with
        | (m'', .ok tail) => (m'', .ok (enriched :: tail))
        | (m'', .error e) => (m'', .error e)

/-- Recursive worker for `assignSequenceNumbers`. -/
def assignSeqFrom (i : ℕ) : List NormalizedMessage → List NormalizedMessage
  | [] => []
  | msg :: rest =>
    { msg with sequenceNumber := some i } :: assignSeqFrom (i + 1) rest

/-- `assignSequenceNumbers`: index the list from 0 in delivery order. -/
def assignSequenceNumbers (msgs : List NormalizedMessage) :
    List NormalizedMessage :=
  assignSeqFrom 0 msgs

/-! ## Engine facade (`LiteMemory` in `liteMem.ts`) -/

/-- `messagesUse` policy, from the union type in `types/config.ts`. -/
inductive MessagesUse where
  | user_only
  | assistant_only
  | hybrid
deriving DecidableEq, Repr

/-- The `roleFilter` table of `LiteMemory.filterMessagesByRole`. -/
def allowedRoles : MessagesUse → List Role
  | .user_only => [.user]
  | .assistant_only => [.assistant]
  | .hybrid => [.user, .assistant]

/-- `LiteMemory.filterMessagesByRole`. -/
def filterMessagesByRole (mu : MessagesUse)
    (msgs : List NormalizedMessage) : List NormalizedMessage :=
  msgs.filter (fun msg => (allowedRoles mu).contains msg.role)

/-- The fragment of `LiteMemConfig` the modelled operations read. -/
structure Config where
  messagesUse : MessagesUse
  metadataGenerate : Bool
deriving DecidableEq, Repr

/-- Oracles for the external collaborators of `addMemory`: the session
timestamp grammar, the extraction LLM (one call per segment, returning
the cleaned fact list), the embedding provider, `crypto.randomUUID`
(an id per fact index), and the wall clock used for the
no-source-message defaults. -/
structure Oracles where
  parse : String → Option (ℤ × String)
  extract : List NormalizedMessage → List ExtractedFact
  embed : String → List ℚ
  mkId : ℕ → String
  nowMs : ℤ

/-- Mutable engine state touched by the modelled operations: the
short-term message buffer, the fact store, and the normalizer map. -/
structure EngineState where
  buffer : List NormalizedMessage
  store : List MemoryEntry
  normMap : List (String × ℤ)

/-- The predicate of the `messages.find(...)` call in
`LiteMemory.createMemoryEntries`: a defined `sequenceNumber` whose
`Math.floor(sequenceNumber / 2)` equals the cited source id. -/
def sourceMatches (fact : ExtractedFact) (msg : NormalizedMessage) :
    Bool :=
  match msg.sequenceNumber with
  | none => false
  | some s => decide ((s / 2 : ℕ) = fact.sourceId)

/-- FactRecord synthesis of one extracted fact
(`createMemoryEntry({...})` inside `LiteMemory.createMemoryEntries`):
fields default to the fact text, the source message metadata when one
matched, and the wall clock otherwise.  `i` is the fact index used by
the id oracle. -/
def synthesizeEntry (or : Oracles) (i : ℕ) (fact : ExtractedFact)
    (sourceMessage : Option NormalizedMessage) : MemoryEntry :=
  { id := or.mkId i
    timeStamp :=
      match sourceMessage with
      | some m => m.timeStamp
      | none => or.nowMs
    floatTimeStamp :=
      match sourceMessage with
      | some m => (m.timeStamp : ℚ) / 1000
      | none => (or.nowMs : ℚ) / 1000
    weekday := (sourceMessage.map (·.weekday)).getD ""
    category := ""
    subcategory := ""
    memoryClass := ""
    memory := fact.fact
    originalMemory := fact.fact
    compressedMemory := ""
    topicId := none
    topicSummary := ""
    speakerId := (sourceMessage.map (·.speakerId)).getD ""
    speakerName := (sourceMessage.map (·.speakerName)).getD ""
    hitTime := 0
    updateQueue := []
    embedding := none }

/-- `LiteMemory.createMemoryEntries`: for each extracted fact, find
the source message, synthesize the record, embed its memory text and
insert it into the store.  Returns the store after the inserts and the
number of entries created. -/
def createMemoryEntries (or : Oracles) (i : ℕ)
    (facts : List ExtractedFact) (messages : List NormalizedMessage)
    (store : List MemoryEntry) : List MemoryEntry × ℕ :=
  match facts with
  | [] => (store, 0)
  | fact :: rest =>
    let sourceMessage := messages.find? (sourceMatches fact)
    let entry := synthesizeEntry or i fact sourceMessage
    let embedding := or.embed entry.memory
    let store' := insertEntry store entry embedding
    let (store'', n) := createMemoryEntries or (i + 1) rest messages store'
    (store'', n + 1)

/-- `LiteMemory.addMemory`: normalize, assign sequence numbers, append
to the buffer; when `forceExtract` is set or the buffer holds at least
10 messages, role-filter the buffer, extract facts (when
`metadataGenerate` is on), synthesize and insert the records, and
clear the buffer.  Returns the new state and either the count of
entries created or the normalization error. -/
def addMemory (cfg : Config) (or : Oracles) (msgs : List Message)
    (forceExtract : Bool) (st : EngineState) :
    EngineState × Except String ℕ :=
  match normalizeMessages or.parse 500 st.normMap msgs with
  | (m', .error e) => ({ st with normMap := m' }, .error e)
  | (m', .ok normalizedMessages) =>
    let messagesWithSeq := assignSequenceNumbers normalizedMessages
    let buffer' := st.buffer ++ messagesWithSeq
    let shouldExtract := forceExtract || decide (10 ≤ buffer'.length)
    if shouldExtract then
      let messagesToProcess := filterMessagesByRole cfg.messagesUse buffer'
      if messagesToProcess.isEmpty then
        ({ buffer := [], store := st.store, normMap := m' }, .ok 0)
      else if cfg.metadataGenerate then
        let facts := or.extract messagesToProcess
        let (store', n) :=
          createMemoryEntries or 0 facts messagesToProcess st.store
        ({ buffer := [], store := store', normMap := m' }, .ok n)
      else
        ({ buffer := [], store := st.store, normMap := m' }, .ok 0)
    else
      ({ st with buffer := buffer', normMap := m' }, .ok 0)

/-! ## Consolidation phase 1
(`LiteMemory.constructUpdateQueueAllEntries`) -/

/-- One iteration of the phase-1 loop: skip entries without an
embedding, search the current store for `topK` hits no newer than the
entry (the `lte` bound inherits the truthiness check of `search`),
drop the self hit, keep the first `keepTopN`, and write the candidate
list into the row of this entry. -/
noncomputable def phase1Step (topK keepTopN : ℕ)
    (store : List MemoryEntry) (entry : MemoryEntry) :
    List MemoryEntry :=
  match entry.embedding with
  | none => store
  | some emb =>
    let hits := search store emb topK
      (some { floatTimeStamp := some { lte := some entry.floatTimeStamp } })
    let candidates :=
      ((hits.filter (fun h => h.id ≠ entry.id)).take keepTopN).map
        (fun h => UpdateCandidate.mk h.id h.score)
    updateEntry store entry.id { updateQueue := some candidates }

/-- `LiteMemory.constructUpdateQueueAllEntries`: iterate phase-1 steps
over the snapshot `getAll(true)` taken before the loop. -/
noncomputable def constructUpdateQueueAllEntries
    (store : List MemoryEntry) (topK keepTopN : ℕ) :
    List MemoryEntry :=
  store.foldl (phase1Step topK keepTopN) store

/-! ## Consolidation phase 2 (`LiteMemory.offlineUpdateAllEntries`
and `OpenRouterManager.callUpdateLlm`) -/

/-- Outcome of the chat call and `JSON.parse` in `callUpdateLlm`,
abstracting the JSON text: either the reply failed (network error or
unparseable JSON, both landing in the catch block) or it parsed to an
object whose `action` and `new_memory` fields may each be absent. -/
inductive RawReply where
  | failed
  | parsed (action : Option String) (newMemory : Option String)

/-- `UpdateResult` as produced by `callUpdateLlm`. -/
structure UpdateResult where
  action : String
  newMemory : Option String

/-- The parsing logic of `OpenRouterManager.callUpdateLlm`: a failed
or unparseable reply and a missing (or falsy, i.e. empty) `action`
both collapse to `ignore`; otherwise the action string and optional
`new_memory` pass through unchanged. -/
def callUpdateLlm (reply : RawReply) : UpdateResult :=
  match reply with
  | .failed => { action := "ignore", newMemory := none }
  | .parsed none _ => { action := "ignore", newMemory := none }
  | .parsed (some a) nm =>
    if a = "" then { action := "ignore", newMemory := none }
    else { action := a, newMemory := nm }

/-- The `queue.find(...)` call of the phase-2 source scan: an update
queue cites the target id with a score at least the threshold. -/
noncomputable def citesTarget (threshold : ℝ) (targetId : String)
    (other : MemoryEntry) : Bool :=
  (other.updateQueue.find? (fun c =>
    decide (c.id = targetId) && decide (threshold ≤ c.score))).isSome

/-- The apply-action block of the phase-2 loop body: `delete` removes
the target row, `update` with a truthy `new_memory` patches the
`memory` column, anything else changes nothing. -/
def applyDecision (store : List MemoryEntry) (targetId : String)
    (result : UpdateResult) : List MemoryEntry :=
  if result.action = "delete" then
    deleteEntry store targetId
  else
    match result.newMemory with
    | some nm =>
      if result.action = "update" ∧ nm ≠ "" then
        updateEntry store targetId { memory := some nm }
      else store
    | none => store

/-- One iteration of the phase-2 loop for target `entry`: collect the
snapshot records whose queue cites the target above the threshold,
skip the target when there are none, otherwise apply the parsed LLM
decision. -/
noncomputable def phase2Step (llm : String → List String → RawReply)
    (threshold : ℝ) (snapshot : List MemoryEntry)
    (store : List MemoryEntry) (entry : MemoryEntry) :
    List MemoryEntry :=
  if (snapshot.filter (citesTarget threshold entry.id)).isEmpty then store
  else
    applyDecision store entry.id
      (callUpdateLlm (llm entry.memory
        ((snapshot.filter (citesTarget threshold entry.id)).map (·.memory))))

/-- `LiteMemory.offlineUpdateAllEntries`: iterate phase-2 steps over
the snapshot `getAll(true)` taken before the loop; candidate sources
are always computed from that snapshot. -/
noncomputable def offlineUpdateAllEntries
    (llm : String → List String → RawReply) (threshold : ℝ)
    (store : List MemoryEntry) : List MemoryEntry :=
  store.foldl (phase2Step llm threshold store) store

/-! ## Embedder (`OpenRouterEmbedder` in `embeddings/openrouter.ts`) -/

/-- Embedder state: the text-to-vector cache (insert-or-replace map)
and the usage statistics. -/
structure EmbedderState where
  cache : List (String × List ℚ)
  cacheEnabled : Bool
  totalCalls : ℕ
  totalTokens : ℕ

/-- Cache lookup (`this.cache.get(text)`); a stored vector is an
object and hence always truthy. -/
def cacheGet (cache : List (String × List ℚ)) (text : String) :
    Option (List ℚ) :=
  (cache.find? (fun p => p.1 = text)).map (·.2)

/-- `OpenRouterEmbedder.embed`: return a cache hit unchanged;
otherwise call the provider (an oracle indexed by the current call
counter, so successive remote calls may return different vectors),
bump the statistics, and populate the cache. -/
def embed (provider : ℕ → String → List ℚ × ℕ) (st : EmbedderState)
    (text : String) : List ℚ × EmbedderState :=
  match if st.cacheEnabled then cacheGet st.cache text else none with
  | some cached => (cached, st)
  | none =>
    let (vec, toks) := provider st.totalCalls text
    let st' := { st with
      totalCalls := st.totalCalls + 1
      totalTokens := st.totalTokens + toks }
    let st'' :=
      if st.cacheEnabled then
        { st' with cache := (text, vec) :: st'.cache }
      else st'
    (vec, st'')

/-! ## Derived predicates used by the statements -/

/-- Lookup of the first row with a given id (the unique one when ids
are nodup). -/
def findById : List MemoryEntry → String → Option MemoryEntry
  | [], _ => none
  | r :: rest, id => if r.id = id then some r else findById rest id

/-- The fate of a target row under a parsed phase-2 decision: removed
by `delete`, its memory rewritten by a truthy `update`, untouched by
anything else. -/
def decisionFate (t : MemoryEntry) (d : UpdateResult) :
    Option MemoryEntry :=
  if d.action = "delete" then none
  else
    match d.newMemory with
    | some nm =>
      if d.action = "update" ∧ nm ≠ "" then some { t with memory := nm }
      else some t
    | none => some t

/-- The identity-plus-timestamp-plus-embedding key of a row, which
consolidation phase 1 never changes. -/
def keyOf (r : MemoryEntry) : String × ℚ × Option (List ℚ) :=
  (r.id, r.floatTimeStamp, r.embedding)

/-- Two stores with pointwise equal keys (same rows up to fields that
phase 1 may rewrite). -/
def Aligned (s s' : List MemoryEntry) : Prop :=
  s.map keyOf = s'.map keyOf

/-- Temporal directionality of one record against a reference store:
whenever the record has a truthy (nonzero) timestamp, every queue
candidate resolves to a row that is not newer. -/
def QueueGood (store : List MemoryEntry) (r : MemoryEntry) : Prop :=
  r.floatTimeStamp ≠ 0 → ∀ c ∈ r.updateQueue,
    ∃ e ∈ store, e.id = c.id ∧ e.floatTimeStamp ≤ r.floatTimeStamp

/-- Self-exclusion of one record: its queue never cites its own id. -/
def SelfFree (r : MemoryEntry) : Prop :=
  ∀ c ∈ r.updateQueue, c.id ≠ r.id

/-- Projection to the id and origin text of a row. -/
def originKey (r : MemoryEntry) : String × String :=
  (r.id, r.originalMemory)

/-- Every field of a row except `memory`. -/
def nonMemoryFields (r : MemoryEntry) :
    String × ℤ × ℚ × String × String × String × String × String ×
      String × Option ℤ × String × String × String × ℚ ×
      List UpdateCandidate × Option (List ℚ) :=
  (r.id, r.timeStamp, r.floatTimeStamp, r.weekday, r.category,
    r.subcategory, r.memoryClass, r.originalMemory, r.compressedMemory,
    r.topicId, r.topicSummary, r.speakerId, r.speakerName, r.hitTime,
    r.updateQueue, r.embedding)

/-- The arithmetic progression of instants the normalizer assigns to
`n` messages sharing a fresh session marker parsed to `start`. -/
def expectedTs (start : ℤ) (n : ℕ) : List ℤ :=
  (List.range n).map (fun k : ℕ => start + 500 * (k : ℤ))

/-- Claim-side description of fact-to-message binding: the first
message, in buffer order, that passes the role filter and cites the
matching source id. -/
def bindsFirstFiltered (mu : MessagesUse) (buf : List NormalizedMessage)
    (fact : ExtractedFact) : Option NormalizedMessage :=
  buf.find? (fun m =>
    (allowedRoles mu).contains m.role && sourceMatches fact m)

/-! ## Concrete data used by witnesses and counterexamples -/

/-- A row with every field at its neutral value. -/
def baseEntry : MemoryEntry :=
  { id := "", timeStamp := 0, floatTimeStamp := 0, weekday := ""
    category := "", subcategory := "", memoryClass := "", memory := ""
    originalMemory := "", compressedMemory := "", topicId := none
    topicSummary := "", speakerId := "", speakerName := "", hitTime := 0
    updateQueue := [], embedding := none }

/-- A stored row dated before the epoch. -/
def eNeg : MemoryEntry :=
  { baseEntry with id := "a", floatTimeStamp := -1, embedding := some [1] }

/-- A filter that supplies the inclusive bound `gte = 0`. -/
def fGte0 : RetrieveFilters :=
  { floatTimeStamp := some { gte := some 0 } }

/-- Phase-1 counterexample store, older row: dated exactly at the
epoch, so its numeric timestamp 0 is falsy. -/
def cA : MemoryEntry :=
  { baseEntry with id := "a", floatTimeStamp := 0, embedding := some [1] }

/-- Phase-1 counterexample store, newer row. -/
def cB : MemoryEntry :=
  { baseEntry with id := "b", floatTimeStamp := 100, embedding := some [1] }

/-- `cA` after phase 1 stored its queue: it cites the newer row. -/
def cA1 : MemoryEntry :=
  { cA with updateQueue := [⟨"b", 1⟩] }

/-- `cB` after phase 1 stored its queue. -/
def cB1 : MemoryEntry :=
  { cB with updateQueue := [⟨"a", 1⟩] }

/-- Phase-2 witness target row. -/
def tEnt : MemoryEntry :=
  { baseEntry with id := "t", memory := "target" }

/-- Phase-2 witness source row whose queue cites the target with
score 1. -/
def srcEnt : MemoryEntry :=
  { baseEntry with
    id := "s"
    memory := "source"
    updateQueue := [⟨"t", 1⟩] }

/-- Write-once counterexample: first insert under id `"a"`. -/
def e8a : MemoryEntry :=
  { baseEntry with id := "a", originalMemory := "x" }

/-- Write-once counterexample: second insert under the same id with a
different origin text. -/
def e8b : MemoryEntry :=
  { baseEntry with id := "a", originalMemory := "y" }

/-- Sequence-number counterexample: a system-role message buffered by
the first `addMemory` call. -/
def sysMsg : Message :=
  { role := .system, content := "c1", timeStamp := "M1"
    speakerId := "s", speakerName := "S" }

/-- Sequence-number counterexample: a user message delivered by the
second, triggering `addMemory` call. -/
def userMsg : Message :=
  { role := .user, content := "c2", timeStamp := "M2"
    speakerId := "u", speakerName := "U" }

/-- Oracles for the sequence-number counterexample: a two-marker
grammar, an extractor citing source id 0, and constant embeddings. -/
def or10 : Oracles :=
  { parse := fun s =>
      if s = "M1" then some (1000, "Mon")
      else if s = "M2" then some (2000, "Tue")
      else none
    extract := fun _ => [⟨0, "f"⟩]
    embed := fun _ => [1]
    mkId := fun _ => "e0"
    nowMs := 0 }

/-- Configuration for the sequence-number counterexample. -/
def cfg10 : Config := { messagesUse := .hybrid, metadataGenerate := true }

/-- Empty engine state. -/
def st0 : EngineState := { buffer := [], store := [], normMap := [] }

/-- State after buffering the system message (no trigger). -/
def st1 : EngineState := (addMemory cfg10 or10 [sysMsg] false st0).1

/-- State after the triggering second call. -/
def st2 : EngineState := (addMemory cfg10 or10 [userMsg] true st1).1

/-- The buffered system message with its per-call sequence number 0. -/
def sysN : NormalizedMessage :=
  { role := .system, content := "c1", timeStamp := 1000
    speakerId := "s", speakerName := "S", sessionTime := "M1"
    weekday := "Mon", sequenceNumber := some 0 }

/-- The normalized user message before sequence assignment. -/
def userRaw : NormalizedMessage :=
  { role := .user, content := "c2", timeStamp := 2000
    speakerId := "u", speakerName := "U", sessionTime := "M2"
    weekday := "Tue" }

/-- The buffered user message: its sequence number restarts at 0. -/
def userN : NormalizedMessage :=
  { userRaw with sequenceNumber := some 0 }

/-- One-marker grammar for the normalizer witness. -/
def parse5 : String → Option (ℤ × String) :=
  fun s => if s = "M" then some (0, "Mon") else none

/-- Two messages sharing the session marker `"M"`. -/
def msgs5 : List Message :=
  [{ role := .user, content := "a", timeStamp := "M" },
   { role := .user, content := "b", timeStamp := "M" }]

/-- Oracles with a grammar that rejects every marker. -/
def or6 : Oracles :=
  { parse := fun _ => none, extract := fun _ => [], embed := fun _ => []
    mkId := fun _ => "", nowMs := 0 }

/-- A message whose marker no grammar accepts. -/
def badMsg : Message := { role := .user, content := "x", timeStamp := "bad" }

/-- A fixture LLM that always replies with an `ignore` action. -/
def llm3 : String → List String → RawReply :=
  fun _ _ => .parsed (some "ignore") none

/-- A fixture LLM that always replies with
`{"action":"update","new_memory":"merged"}`. -/
def llm7 : String → List String → RawReply :=
  fun _ _ => .parsed (some "update") (some "merged")

/-! ## Embedder cache (claim C9) -/

/-- A cache hit returns the cached vector and leaves the embedder
state untouched. -/
theorem embed_hit (provider : ℕ → String → List ℚ × ℕ)
    (st : EmbedderState) (t : String) (v : List ℚ)
    (h : st.cacheEnabled = true) (hc : cacheGet st.cache t = some v) :
    embed provider st t = (v, st) := by
  simp [embed, h, hc]

/-- A cache miss calls the provider, bumps the statistics, and caches
the returned vector. -/
theorem embed_miss (provider : ℕ → String → List ℚ × ℕ)
    (st : EmbedderState) (t : String)
    (h : st.cacheEnabled = true) (hc : cacheGet st.cache t = none) :
    embed provider st t =
      ((provider st.totalCalls t).1,
        { cache := (t, (provider st.totalCalls t).1) :: st.cache
          cacheEnabled := st.cacheEnabled
          totalCalls := st.totalCalls + 1
          totalTokens := st.totalTokens + (provider st.totalCalls t).2 }) := by
  simp [embed, h, hc]

/-- C9.  With caching enabled, a second `embed` call on the same text
returns the identical vector and leaves the call counter of the
embedder statistics unchanged (the hit path never reaches the
provider). -/
theorem embed_cache_stable (provider : ℕ → String → List ℚ × ℕ)
    (st : EmbedderState) (t : String) (h : st.cacheEnabled = true) :
    (embed provider (embed provider st t).2 t).1 =
      (embed provider st t).1 ∧
    (embed provider (embed provider st t).2 t).2.totalCalls =
      (embed provider st t).2.totalCalls := by
  cases hc : cacheGet st.cache t with
  | some v =>
    simp [embed_hit provider st t v h hc]
  | none =>
    have h1 := embed_miss provider st t h hc
    have h2 : cacheGet ((t, (provider st.totalCalls t).1) :: st.cache) t =
        some (provider st.totalCalls t).1 := by
      simp [cacheGet]
    have h3 := embed_hit provider
      { cache := (t, (provider st.totalCalls t).1) :: st.cache
        cacheEnabled := st.cacheEnabled
        totalCalls := st.totalCalls + 1
        totalTokens := st.totalTokens + (provider st.totalCalls t).2 }
      t (provider st.totalCalls t).1 (by exact h) h2
    simp [h1, h3]

/-- Witness for C9 at a concrete provider and empty cache. -/
theorem embed_cache_stable_witness :
    (EmbedderState.mk [] true 0 0).cacheEnabled = true ∧
    ((embed (fun _ _ => ([1], 5))
        (embed (fun _ _ => ([1], 5)) (EmbedderState.mk [] true 0 0) "x").2
        "x").1 =
      (embed (fun _ _ => ([1], 5)) (EmbedderState.mk [] true 0 0) "x").1 ∧
    (embed (fun _ _ => ([1], 5))
        (embed (fun _ _ => ([1], 5)) (EmbedderState.mk [] true 0 0) "x").2
        "x").2.totalCalls =
      (embed (fun _ _ => ([1], 5)) (EmbedderState.mk [] true 0 0) "x").2.totalCalls) :=
  ⟨rfl, embed_cache_stable (fun _ _ => ([1], 5)) (EmbedderState.mk [] true 0 0) "x" rfl⟩

/-! ## Normalizer monotonicity (claim C5) -/

theorem expectedTs_succ (s : ℤ) (n : ℕ) :
    expectedTs s (n + 1) = s :: expectedTs (s + 500) n := by
  unfold expectedTs
  rw [List.range_succ_eq_map, List.map_cons, List.map_map]
  refine congrArg₂ _ (by ring) (List.map_congr_left ?_)
  intro a _
  simp [Function.comp]
  ring

theorem expectedTs_head (s : ℤ) (n : ℕ) (h : n ≠ 0) :
    (expectedTs s n).head? = some s := by
  cases n with
  | zero => exact absurd rfl h
  | succ k => rw [expectedTs_succ]; rfl

theorem expectedTs_chain (n : ℕ) : ∀ s, (expectedTs s n).Chain' (· < ·) := by
  induction n with
  | zero => intro s; simp [expectedTs]
  | succ k ih =>
    intro s
    rw [expectedTs_succ]
    refine List.chain'_cons'.mpr ⟨?_, ih (s + 500)⟩
    intro y hy
    cases k with
    | zero => simp [expectedTs] at hy
    | succ j =>
      rw [expectedTs_head _ _ (Nat.succ_ne_zero j)] at hy
      cases hy
      omega

theorem getLast_setLast (m : List (String × ℤ)) (k : String) (v : ℤ) :
    getLast (setLast m k v) k = some v := by
  simp [getLast, setLast, List.find?]

/-- Worker for C5: from any map state whose next assignment for the
shared marker is `next`, the run succeeds and assigns the arithmetic
progression starting at `next`. -/
theorem normalize_same_marker_aux (parse : String → Option (ℤ × String))
    (mk : String) (t0 : ℤ) (wd : String) (hmk : mk ≠ "")
    (hp : parse mk = some (t0, wd)) :
    ∀ (msgs : List Message) (m : List (String × ℤ)) (next : ℤ),
      (∀ msg ∈ msgs, msg.timeStamp = mk) →
      (getLast m mk = none ∧ next = t0 ∨
        ∃ l, getLast m mk = some l ∧ next = l + 500) →
      ∃ out, (normalizeMessages parse 500 m msgs).2 = .ok out ∧
        out.map (·.timeStamp) = expectedTs next msgs.length := by
  intro msgs
  induction msgs with
  | nil =>
    intro m next _ _
    exact ⟨[], rfl, by simp [expectedTs]⟩
  | cons msg rest ih =>
    intro m next hall hnext
    have hts : msg.timeStamp = mk := hall msg (by simp)
    obtain ⟨out, hout, hmap⟩ :=
      ih (setLast m mk next) (next + 500)
        (fun x hx => hall x (by simp [hx]))
        (Or.inr ⟨next, getLast_setLast m mk next, rfl⟩)
    simp only [normalizeMessages, hts, if_neg hmk, hp]
    rcases hnext with ⟨hg, rfl⟩ | ⟨l, hg, rfl⟩
    · simp only [hg]
      refine ⟨{ role := msg.role
                content := msg.content
                timeStamp := next
                speakerId := msg.speakerId
                speakerName := msg.speakerName
                sessionTime := mk
                weekday := wd
                sequenceNumber := none } :: out, ?_, ?_⟩
      · split
        · rename_i m2 tail heq
          rw [heq] at hout
          obtain rfl := Except.ok.inj hout
          rfl
        · rename_i m2 e heq
          rw [heq] at hout
          exact absurd hout (by simp)
      · rw [List.map_cons, List.length_cons, expectedTs_succ, hmap]
    · simp only [hg]
      refine ⟨{ role := msg.role
                content := msg.content
                timeStamp := l + 500
                speakerId := msg.speakerId
                speakerName := msg.speakerName
                sessionTime := mk
                weekday := wd
                sequenceNumber := none } :: out, ?_, ?_⟩
      · split
        · rename_i m2 tail heq
          rw [heq] at hout
          obtain rfl := Except.ok.inj hout
          rfl
        · rename_i m2 e heq
          rw [heq] at hout
          exact absurd hout (by simp)
      · rw [List.map_cons, List.length_cons, expectedTs_succ, hmap]

/-- C5.  Messages sharing one session marker that is fresh for the
normalizer instance are assigned strictly increasing instants: the
first receives the parsed instant of the marker, each subsequent one
the previous instant plus the default 500 ms offset. -/
theorem normalizer_monotonic (parse : String → Option (ℤ × String))
    (msgs : List Message) (m0 : List (String × ℤ)) (mk : String)
    (t0 : ℤ) (wd : String)
    (hall : ∀ msg ∈ msgs, msg.timeStamp = mk) (hmk : mk ≠ "")
    (hp : parse mk = some (t0, wd)) (hfresh : getLast m0 mk = none) :
    ∃ out, (normalizeMessages parse 500 m0 msgs).2 = .ok out ∧
      out.map (·.timeStamp) = expectedTs t0 msgs.length ∧
      (out.map (·.timeStamp)).Chain' (· < ·) := by
  obtain ⟨out, h1, h2⟩ :=
    normalize_same_marker_aux parse mk t0 wd hmk hp msgs m0 t0 hall
      (Or.inl ⟨hfresh, rfl⟩)
  exact ⟨out, h1, h2, h2 ▸ expectedTs_chain msgs.length t0⟩

/-- Witness for C5: two messages sharing the fresh marker `"M"`. -/
theorem normalizer_monotonic_witness :
    (∀ msg ∈ msgs5, msg.timeStamp = "M") ∧
    ("M" : String) ≠ "" ∧
    parse5 "M" = some (0, "Mon") ∧
    getLast [] "M" = none ∧
    ∃ out,
      (normalizeMessages parse5 500 [] msgs5).2 = .ok out ∧
      out.map (·.timeStamp) = expectedTs 0 msgs5.length ∧
      (out.map (·.timeStamp)).Chain' (· < ·) :=
  ⟨by decide, by decide, rfl, rfl,
    normalizer_monotonic parse5 msgs5 [] "M" 0 "Mon" (by decide) (by decide)
      rfl rfl⟩

/-! ## Whole-batch rejection (claim C6) -/

/-- A batch containing a message with a missing (empty) timestamp or
an unparseable marker makes the normalizer fail. -/
theorem normalize_error_of_bad (parse : String → Option (ℤ × String))
    (off : ℤ) :
    ∀ (msgs : List Message) (m : List (String × ℤ)),
      (∃ msg ∈ msgs, msg.timeStamp = "" ∨ parse msg.timeStamp = none) →
      ∃ e, (normalizeMessages parse off m msgs).2 = .error e := by
  intro msgs
  induction msgs with
  | nil => intro m h; simp at h
  | cons msg rest ih =>
    intro m hbad
    by_cases h1 : msg.timeStamp = ""
    · exact ⟨"Each message should contain a timeStamp field",
        by simp only [normalizeMessages, if_pos h1]⟩
    · cases hp : parse msg.timeStamp with
      | none =>
        exact ⟨"Failed to parse session time format",
          by simp only [normalizeMessages, if_neg h1, hp]⟩
      | some p =>
        obtain ⟨bd, wd⟩ := p
        have hrest : ∃ x ∈ rest,
            x.timeStamp = "" ∨ parse x.timeStamp = none := by
          obtain ⟨msg', hmem, hbad'⟩ := hbad
          rcases List.mem_cons.mp hmem with rfl | h
          · rcases hbad' with h | h
            · exact absurd h h1
            · rw [hp] at h; exact absurd h (by simp)
          · exact ⟨msg', h, hbad'⟩
        simp only [normalizeMessages, if_neg h1, hp]
        cases hg : getLast m msg.timeStamp with
        | none =>
          obtain ⟨e, he⟩ := ih (setLast m msg.timeStamp bd) hrest
          refine ⟨e, ?_⟩
          simp only [hg]
          split
          · rename_i m2 tail heq
            rw [heq] at he
            exact absurd he (by simp)
          · rename_i m2 e2 heq
            rw [heq] at he
            exact he
        | some l =>
          obtain ⟨e, he⟩ := ih (setLast m msg.timeStamp (l + off)) hrest
          refine ⟨e, ?_⟩
          simp only [hg]
          split
          · rename_i m2 tail heq
            rw [heq] at he
            exact absurd he (by simp)
          · rename_i m2 e2 heq
            rw [heq] at he
            exact he

/-- C6.  If any message of the batch has an empty timestamp or a
marker the grammar cannot parse, `addMemory` returns the structured
error and neither the message buffer nor the fact store changes. -/
theorem addMemory_rejects_batch (cfg : Config) (or : Oracles)
    (msgs : List Message) (force : Bool) (st : EngineState)
    (hbad : ∃ msg ∈ msgs,
      msg.timeStamp = "" ∨ or.parse msg.timeStamp = none) :
    (addMemory cfg or msgs force st).1.buffer = st.buffer ∧
    (addMemory cfg or msgs force st).1.store = st.store ∧
    ∃ e, (addMemory cfg or msgs force st).2 = .error e := by
  obtain ⟨e, he⟩ := normalize_error_of_bad or.parse 500 msgs st.normMap hbad
  unfold addMemory
  rcases h : normalizeMessages or.parse 500 st.normMap msgs with ⟨m', r⟩
  rw [h] at he
  simp only at he
  subst he
  exact ⟨rfl, rfl, e, rfl⟩

/-- Witness for C6: a one-message batch whose marker no grammar
accepts. -/
theorem addMemory_rejects_batch_witness :
    (∃ msg ∈ [badMsg],
      msg.timeStamp = "" ∨ or6.parse msg.timeStamp = none) ∧
    ((addMemory cfg10 or6 [badMsg] false st0).1.buffer = st0.buffer ∧
      (addMemory cfg10 or6 [badMsg] false st0).1.store = st0.store ∧
      ∃ e, (addMemory cfg10 or6 [badMsg] false st0).2 = .error e) :=
  ⟨⟨badMsg, by decide, Or.inr rfl⟩,
    addMemory_rejects_batch cfg10 or6 [badMsg] false st0
      ⟨badMsg, by decide, Or.inr rfl⟩⟩

/-! ## Write-once origin (claim C8) -/

/-- C8 counterexample.  `insert` is `INSERT OR REPLACE`: a repeated
insert under the same id replaces the whole row, so the stored
`originalMemory` under id `"a"` changes from `"x"` to `"y"`. -/
theorem insert_overwrites_origin :
    (findById (insertEntry (insertEntry [] e8a [1]) e8b [1]) "a").map
        (·.originalMemory) = some "y" ∧
    (findById (insertEntry [] e8a [1]) "a").map (·.originalMemory) =
      some "x" ∧
    ("y" : String) ≠ "x" := by
  refine ⟨?_, ?_, by decide⟩ <;> rfl

theorem updateEntry_map_originKey (s : List MemoryEntry) (id : String)
    (p : UpdatePatch) :
    (updateEntry s id p).map originKey = s.map originKey := by
  unfold updateEntry
  rw [List.map_map]
  refine List.map_congr_left ?_
  intro r _
  by_cases h : r.id = id <;> simp [h, Function.comp, applyPatch, originKey]

theorem foldl_phase1_map_originKey (topK keepTopN : ℕ) :
    ∀ (l : List MemoryEntry) (s : List MemoryEntry),
      (List.foldl (phase1Step topK keepTopN) s l).map originKey =
        s.map originKey := by
  intro l
  induction l with
  | nil => intro s; rfl
  | cons x l' ih =>
    intro s
    rw [List.foldl_cons, ih]
    unfold phase1Step
    cases x.embedding with
    | none => rfl
    | some emb => exact updateEntry_map_originKey s x.id _

theorem deleteEntry_map_originKey_sublist (s : List MemoryEntry)
    (id : String) :
    ((deleteEntry s id).map originKey).Sublist (s.map originKey) :=
  (List.filter_sublist s).map originKey

theorem applyDecision_map_originKey_sublist (s : List MemoryEntry)
    (tid : String) (result : UpdateResult) :
    ((applyDecision s tid result).map originKey).Sublist
      (s.map originKey) := by
  unfold applyDecision
  split
  · exact deleteEntry_map_originKey_sublist s tid
  · split
    · split
      · rw [updateEntry_map_originKey]
      · exact List.Sublist.refl _
    · exact List.Sublist.refl _

theorem phase2Step_map_originKey_sublist
    (llm : String → List String → RawReply) (θ : ℝ)
    (snapshot s : List MemoryEntry) (e : MemoryEntry) :
    ((phase2Step llm θ snapshot s e).map originKey).Sublist
      (s.map originKey) := by
  unfold phase2Step
  split
  · exact List.Sublist.refl _
  · exact applyDecision_map_originKey_sublist s e.id _

theorem foldl_phase2_map_originKey_sublist
    (llm : String → List String → RawReply) (θ : ℝ)
    (snapshot : List MemoryEntry) :
    ∀ (l : List MemoryEntry) (s : List MemoryEntry),
      ((List.foldl (phase2Step llm θ snapshot) s l).map originKey).Sublist
        (s.map originKey) := by
  intro l
  induction l with
  | nil => intro s; exact List.Sublist.refl _
  | cons x l' ih =>
    intro s
    rw [List.foldl_cons]
    exact (ih _).trans (phase2Step_map_originKey_sublist llm θ snapshot s x)

/-- C8 (amended).  `originalMemory` is never rewritten by `update`
(with any permitted field set), by consolidation phase 1 (each row
keeps its id and origin text), or by phase 2 (the surviving rows keep
their id and origin text); retrieval does not mutate the store at all.
Only a repeated insert under an existing id can replace it, because
insert has `INSERT OR REPLACE` semantics. -/
theorem origin_write_once :
    (∀ (store : List MemoryEntry) (id : String) (p : UpdatePatch),
        (updateEntry store id p).map (·.originalMemory) =
          store.map (·.originalMemory)) ∧
    (∀ (store : List MemoryEntry) (topK keepTopN : ℕ),
        (constructUpdateQueueAllEntries store topK keepTopN).map originKey =
          store.map originKey) ∧
    (∀ (llm : String → List String → RawReply) (θ : ℝ)
        (store : List MemoryEntry),
        ((offlineUpdateAllEntries llm θ store).map originKey).Sublist
          (store.map originKey)) := by
  refine ⟨?_, ?_, ?_⟩
  · intro store id p
    have h := updateEntry_map_originKey store id p
    have h2 : ∀ (s : List MemoryEntry),
        s.map (·.originalMemory) = (s.map originKey).map Prod.snd := by
      intro s
      rw [List.map_map]
      rfl
    rw [h2, h2, h]
  · intro store topK keepTopN
    exact foldl_phase1_map_originKey topK keepTopN store store
  · intro llm θ store
    exact foldl_phase2_map_originKey_sublist llm θ store store store

/-! ## Phase-2 update frame (claim C7) -/

/-- C7.  When phase 2 applies an `update` decision with a truthy
`new_memory` to a target, the step rewrites only the `memory` column
of the row with the target id: every other field of that row — its
embedding included, which is not recomputed — and every other row are
unchanged. -/
theorem phase2_update_frame (llm : String → List String → RawReply)
    (θ : ℝ) (snapshot store : List MemoryEntry) (t : MemoryEntry)
    (nm : String)
    (hsrc : (snapshot.filter (citesTarget θ t.id)).isEmpty = false)
    (hact : callUpdateLlm (llm t.memory
        ((snapshot.filter (citesTarget θ t.id)).map (·.memory))) =
      ⟨"update", some nm⟩)
    (hnm : nm ≠ "") :
    (phase2Step llm θ snapshot store t).map nonMemoryFields =
      store.map nonMemoryFields ∧
    (phase2Step llm θ snapshot store t).map (·.memory) =
      store.map (fun r => if r.id = t.id then nm else r.memory) := by
  unfold phase2Step
  rw [hsrc]
  simp only [Bool.false_eq_true, if_false]
  rw [hact]
  unfold applyDecision
  simp only
  rw [if_neg (by decide : ¬("update" : String) = "delete")]
  rw [if_pos (And.intro (by simp) hnm)]
  constructor
  · unfold updateEntry
    rw [List.map_map]
    refine List.map_congr_left ?_
    intro r _
    by_cases h : r.id = t.id <;>
      simp [h, Function.comp, applyPatch, nonMemoryFields]
  · unfold updateEntry
    rw [List.map_map]
    refine List.map_congr_left ?_
    intro r _
    by_cases h : r.id = t.id <;> simp [h, Function.comp, applyPatch]

/-- The witness source row really cites the target above the 0.9
threshold. -/
theorem citesTarget_src : citesTarget (9/10) tEnt.id srcEnt = true := by
  unfold citesTarget srcEnt tEnt baseEntry
  rw [List.find?_cons_of_pos _
    (by simp only [Bool.and_eq_true, decide_eq_true_eq]
        exact ⟨by trivial, by norm_num⟩)]
  rfl

/-- The phase-2 witness store yields a nonempty source set for the
target. -/
theorem srcSet_nonempty :
    (([tEnt, srcEnt].filter (citesTarget (9/10) tEnt.id)).isEmpty =
      false) := by
  have h1 : citesTarget (9/10) tEnt.id tEnt = false := rfl
  rw [List.filter_cons, List.filter_cons, h1, citesTarget_src]
  rfl

/-- Witness for C7 at a concrete two-row store and fixture LLM. -/
theorem phase2_update_frame_witness :
    (phase2Step llm7 (9/10) [srcEnt] [tEnt, srcEnt] tEnt).map
        nonMemoryFields = [tEnt, srcEnt].map nonMemoryFields ∧
    (phase2Step llm7 (9/10) [srcEnt] [tEnt, srcEnt] tEnt).map (·.memory) =
      [tEnt, srcEnt].map
        (fun r => if r.id = tEnt.id then "merged" else r.memory) := by
  apply phase2_update_frame
  · have h2 : citesTarget (9/10) tEnt.id srcEnt = true := citesTarget_src
    rw [List.filter_cons, h2]
    rfl
  · rfl
  · decide

/-! ## Phase-2 decisions on targets (claim C3) -/

theorem findById_append (l1 : List MemoryEntry) (t : MemoryEntry)
    (l2 : List MemoryEntry) (h1 : ∀ e ∈ l1, e.id ≠ t.id) :
    findById (l1 ++ t :: l2) t.id = some t := by
  induction l1 with
  | nil => simp [findById]
  | cons e rest ih =>
    rw [List.cons_append]
    unfold findById
    rw [if_neg (h1 e (by simp))]
    exact ih (fun x hx => h1 x (by simp [hx]))

theorem applyPatch_id (p : UpdatePatch) (r : MemoryEntry) :
    (applyPatch p r).id = r.id := rfl

theorem findById_cons (r : MemoryEntry) (rest : List MemoryEntry)
    (id : String) :
    findById (r :: rest) id =
      if r.id = id then some r else findById rest id := rfl

theorem findById_updateEntry_eq (s : List MemoryEntry) (tid : String)
    (p : UpdatePatch) :
    findById (updateEntry s tid p) tid = (findById s tid).map (applyPatch p) := by
  induction s with
  | nil => rfl
  | cons r rest ih =>
    unfold updateEntry at ih ⊢
    rw [List.map_cons]
    by_cases h : r.id = tid
    · rw [if_pos h, findById_cons, findById_cons,
        if_pos (show (applyPatch p r).id = tid by rw [applyPatch_id]; exact h),
        if_pos h]
      rfl
    · rw [if_neg h, findById_cons, findById_cons, if_neg h, if_neg h]
      exact ih

theorem findById_updateEntry_ne (s : List MemoryEntry) (x tid : String)
    (p : UpdatePatch) (h : x ≠ tid) :
    findById (updateEntry s x p) tid = findById s tid := by
  induction s with
  | nil => rfl
  | cons r rest ih =>
    unfold updateEntry at ih ⊢
    rw [List.map_cons]
    by_cases hr : r.id = x
    · rw [if_pos hr, findById_cons, findById_cons,
        if_neg (show ¬(applyPatch p r).id = tid by
          rw [applyPatch_id, hr]; exact h),
        if_neg (show ¬r.id = tid by rw [hr]; exact h)]
      exact ih
    · rw [if_neg hr, findById_cons, findById_cons]
      by_cases hr2 : r.id = tid
      · rw [if_pos hr2, if_pos hr2]
      · rw [if_neg hr2, if_neg hr2]
        exact ih

theorem findById_deleteEntry_eq (s : List MemoryEntry) (tid : String) :
    findById (deleteEntry s tid) tid = none := by
  induction s with
  | nil => rfl
  | cons r rest ih =>
    unfold deleteEntry at ih ⊢
    rw [List.filter_cons]
    by_cases h : r.id = tid
    · rw [if_neg (by simpa using h)]
      exact ih
    · rw [if_pos (by simpa using h), findById_cons, if_neg h]
      exact ih

theorem findById_deleteEntry_ne (s : List MemoryEntry) (x tid : String)
    (h : x ≠ tid) :
    findById (deleteEntry s x) tid = findById s tid := by
  induction s with
  | nil => rfl
  | cons r rest ih =>
    unfold deleteEntry at ih ⊢
    rw [List.filter_cons]
    by_cases hr : r.id = x
    · rw [if_neg (by simpa using hr), ih,
        findById_cons, if_neg (show ¬r.id = tid by rw [hr]; exact h)]
    · rw [if_pos (by simpa using hr), findById_cons, findById_cons]
      by_cases hr2 : r.id = tid
      · rw [if_pos hr2, if_pos hr2]
      · rw [if_neg hr2, if_neg hr2]
        exact ih

theorem applyDecision_findById_ne (s : List MemoryEntry) (x tid : String)
    (d : UpdateResult) (h : x ≠ tid) :
    findById (applyDecision s x d) tid = findById s tid := by
  unfold applyDecision
  split
  · exact findById_deleteEntry_ne s x tid h
  · split
    · split
      · exact findById_updateEntry_ne s x tid _ h
      · rfl
    · rfl

theorem phase2Step_findById_ne (llm : String → List String → RawReply)
    (θ : ℝ) (snapshot s : List MemoryEntry) (e : MemoryEntry)
    (tid : String) (h : e.id ≠ tid) :
    findById (phase2Step llm θ snapshot s e) tid = findById s tid := by
  unfold phase2Step
  split
  · rfl
  · exact applyDecision_findById_ne s e.id tid _ h

theorem foldl_phase2_findById (llm : String → List String → RawReply)
    (θ : ℝ) (snapshot : List MemoryEntry) (tid : String) :
    ∀ (l : List MemoryEntry) (s : List MemoryEntry),
      (∀ e ∈ l, e.id ≠ tid) →
      findById (List.foldl (phase2Step llm θ snapshot) s l) tid =
        findById s tid := by
  intro l
  induction l with
  | nil => intro s _; rfl
  | cons x l' ih =>
    intro s h
    rw [List.foldl_cons, ih _ (fun e he => h e (by simp [he])),
      phase2Step_findById_ne llm θ snapshot s x tid (h x (by simp))]

theorem findById_applyDecision (s : List MemoryEntry) (tid : String)
    (d : UpdateResult) (t : MemoryEntry) (hf : findById s tid = some t) :
    findById (applyDecision s tid d) tid = decisionFate t d := by
  unfold applyDecision decisionFate
  split
  · exact findById_deleteEntry_eq s tid
  · split
    · split
      · rw [findById_updateEntry_eq, hf]
        rfl
      · exact hf
    · exact hf

/-- Worker for C3: the fate of the row with the target id after a full
phase-2 run is exactly the parsed decision applied to the target. -/
theorem offlineUpdate_target_fate (llm : String → List String → RawReply)
    (θ : ℝ) (store : List MemoryEntry) (t : MemoryEntry)
    (hnd : (store.map (·.id)).Nodup) (ht : t ∈ store)
    (hsrc : (store.filter (citesTarget θ t.id)).isEmpty = false) :
    findById (offlineUpdateAllEntries llm θ store) t.id =
      decisionFate t (callUpdateLlm (llm t.memory
        ((store.filter (citesTarget θ t.id)).map (·.memory)))) := by
  obtain ⟨l1, l2, hsplit⟩ := List.append_of_mem ht
  subst hsplit
  rw [List.map_append, List.map_cons] at hnd
  obtain ⟨hnd1, hnd2, hdisj⟩ := List.nodup_append.mp hnd
  have h1 : ∀ e ∈ l1, e.id ≠ t.id := by
    intro e he heq
    exact hdisj (heq ▸ List.mem_map_of_mem _ he) (List.mem_cons_self _ _)
  have h2 : ∀ e ∈ l2, e.id ≠ t.id := by
    intro e he heq
    exact (List.nodup_cons.mp hnd2).1 (heq ▸ List.mem_map_of_mem _ he)
  unfold offlineUpdateAllEntries
  rw [List.foldl_append, List.foldl_cons,
    foldl_phase2_findById llm θ _ t.id l2 _ h2]
  have hmid :
      findById (List.foldl (phase2Step llm θ (l1 ++ t :: l2))
        (l1 ++ t :: l2) l1) t.id = some t := by
    rw [foldl_phase2_findById llm θ _ t.id l1 _ h1]
    exact findById_append l1 t l2 h1
  unfold phase2Step
  rw [hsrc]
  simp only [Bool.false_eq_true, if_false]
  exact findById_applyDecision _ t.id _ t hmid

/-- C3.  For a target `t` with at least one source citing it above the
threshold, the parsed decision for `t` is applied exactly as the spec
says: a failed or unparseable reply and a missing action act as
`ignore` and leave the row of `t` untouched, `delete` removes exactly
that row, and `update` with a nonempty `new_memory` rewrites exactly
that row to carry the new memory text; any other action mutates
nothing for `t`. -/
theorem offlineUpdate_decision (llm : String → List String → RawReply)
    (θ : ℝ) (store : List MemoryEntry) (t : MemoryEntry)
    (hnd : (store.map (·.id)).Nodup) (ht : t ∈ store)
    (hsrc : (store.filter (citesTarget θ t.id)).isEmpty = false) :
    (llm t.memory ((store.filter (citesTarget θ t.id)).map (·.memory)) =
        .failed →
      findById (offlineUpdateAllEntries llm θ store) t.id = some t) ∧
    (∀ nm0,
      llm t.memory ((store.filter (citesTarget θ t.id)).map (·.memory)) =
        .parsed none nm0 →
      findById (offlineUpdateAllEntries llm θ store) t.id = some t) ∧
    ((callUpdateLlm (llm t.memory
        ((store.filter (citesTarget θ t.id)).map (·.memory)))).action ≠
        "delete" →
      ¬((callUpdateLlm (llm t.memory
          ((store.filter (citesTarget θ t.id)).map (·.memory)))).action =
            "update" ∧
        ∃ nm, (callUpdateLlm (llm t.memory
          ((store.filter (citesTarget θ t.id)).map
            (·.memory)))).newMemory = some nm ∧ nm ≠ "") →
      findById (offlineUpdateAllEntries llm θ store) t.id = some t) ∧
    ((callUpdateLlm (llm t.memory
        ((store.filter (citesTarget θ t.id)).map (·.memory)))).action =
        "delete" →
      findById (offlineUpdateAllEntries llm θ store) t.id = none) ∧
    (∀ nm,
      (callUpdateLlm (llm t.memory
        ((store.filter (citesTarget θ t.id)).map (·.memory)))).action =
        "update" →
      (callUpdateLlm (llm t.memory
        ((store.filter (citesTarget θ t.id)).map (·.memory)))).newMemory =
        some nm →
      nm ≠ "" →
      findById (offlineUpdateAllEntries llm θ store) t.id =
        some { t with memory := nm }) := by
  have hmaster := offlineUpdate_target_fate llm θ store t hnd ht hsrc
  refine ⟨?_, ?_, ?_, ?_, ?_⟩
  · intro hr
    rw [hmaster, hr]
    rfl
  · intro nm0 hr
    rw [hmaster, hr]
    rfl
  · intro hne hni
    rw [hmaster]
    unfold decisionFate
    rw [if_neg hne]
    rcases hm : (callUpdateLlm (llm t.memory
        ((store.filter (citesTarget θ t.id)).map (·.memory)))).newMemory
      with _ | nm
    · simp only [hm]
    · simp only [hm]
      rw [if_neg (fun hc => hni ⟨hc.1, nm, hm, hc.2⟩)]
  · intro hd
    rw [hmaster]
    unfold decisionFate
    rw [if_pos hd]
  · intro nm ha hm hn
    rw [hmaster]
    unfold decisionFate
    rw [if_neg (by rw [ha]; decide)]
    simp only [hm]
    rw [if_pos ⟨ha, hn⟩]

/-- Witness for C3: a two-row store where the source cites the target
with score 1 and the fixture LLM replies `ignore`. -/
theorem offlineUpdate_decision_witness :
    findById (offlineUpdateAllEntries llm3 (9/10) [tEnt, srcEnt]) tEnt.id =
      some tEnt :=
  (offlineUpdate_decision llm3 (9/10) [tEnt, srcEnt] tEnt
      (by decide) (List.mem_cons_self _ _) srcSet_nonempty).2.2.1
    (by decide) (by rintro ⟨h, -⟩; exact absurd h (by decide))

/-! ## Search correctness (claim C1) -/

/-- Every search hit is a stored row that carries an embedding, passed
the filter check, and is scored by cosine similarity against the
query. -/
theorem mem_search {store : List MemoryEntry} {q : List ℚ} {k : ℕ}
    {f? : Option RetrieveFilters} {r : SearchResult}
    (h : r ∈ search store q k f?) :
    r.payload ∈ store ∧ r.id = r.payload.id ∧
    passesFilters f? r.payload = true ∧
    ∃ emb, r.payload.embedding = some emb ∧
      r.score = cosineSimilarity q emb := by
  unfold search at h
  have h1 := (List.take_sublist k _).subset h
  have h2 := ((List.perm_insertionSort scoreGe _).mem_iff).mp h1
  rw [List.mem_filterMap] at h2
  obtain ⟨e, he, hfe⟩ := h2
  cases hemb : e.embedding with
  | none =>
    rw [hemb] at hfe
    simp at hfe
  | some emb =>
    simp only [hemb] at hfe
    split at hfe
    · rename_i hp
      obtain rfl := Option.some.inj hfe
      exact ⟨he, rfl, hp, emb, hemb, rfl⟩
    · simp at hfe

theorem passes_gte {flt : RetrieveFilters} {e : MemoryEntry}
    (h : passesFilters (some flt) e = true) (rng : FloatRange) (g : ℚ)
    (h1 : flt.floatTimeStamp = some rng) (h2 : rng.gte = some g)
    (h3 : g ≠ 0) : g ≤ e.floatTimeStamp := by
  unfold passesFilters at h
  simp only [Bool.and_eq_true, Bool.not_eq_true'] at h
  exact not_lt.mp (by simpa [gteViolated, h1, h2, h3] using h.1.1.1)

theorem passes_lte {flt : RetrieveFilters} {e : MemoryEntry}
    (h : passesFilters (some flt) e = true) (rng : FloatRange) (l : ℚ)
    (h1 : flt.floatTimeStamp = some rng) (h2 : rng.lte = some l)
    (h3 : l ≠ 0) : e.floatTimeStamp ≤ l := by
  unfold passesFilters at h
  simp only [Bool.and_eq_true, Bool.not_eq_true'] at h
  exact not_lt.mp (by simpa [lteViolated, h1, h2, h3] using h.1.1.2)

theorem passes_speaker {flt : RetrieveFilters} {e : MemoryEntry}
    (h : passesFilters (some flt) e = true) (sid : String)
    (h1 : flt.speakerId = some sid) (h2 : sid ≠ "") :
    e.speakerId = sid := by
  unfold passesFilters at h
  simp only [Bool.and_eq_true, Bool.not_eq_true'] at h
  simpa [speakerViolated, h1, h2] using h.1.2

theorem passes_category {flt : RetrieveFilters} {e : MemoryEntry}
    (h : passesFilters (some flt) e = true) (c : String)
    (h1 : flt.category = some c) (h2 : c ≠ "") :
    e.category = c := by
  unfold passesFilters at h
  simp only [Bool.and_eq_true, Bool.not_eq_true'] at h
  simpa [categoryViolated, h1, h2] using h.2

/-- C1 (amended).  On a store whose embeddings match the query
dimension (elsewhere the source throws), `search(q, k, filters)`
returns at most `k` hits; every hit is a stored row satisfying each
supplied filter predicate whose value is truthy (a nonzero gte/lte
bound, a nonempty speakerId or category); every hit is scored by
cosine similarity against the query; and the hit list is sorted by
score in descending order. -/
theorem search_spec (store : List MemoryEntry) (q : List ℚ) (k : ℕ)
    (f? : Option RetrieveFilters)
    (hdim : ∀ e ∈ store, ∀ v, e.embedding = some v → v.length = q.length) :
    (search store q k f?).length ≤ k ∧
    (∀ r ∈ search store q k f?,
      r.payload ∈ store ∧
      (∀ flt rng g, f? = some flt → flt.floatTimeStamp = some rng →
        rng.gte = some g → g ≠ 0 → g ≤ r.payload.floatTimeStamp) ∧
      (∀ flt rng l, f? = some flt → flt.floatTimeStamp = some rng →
        rng.lte = some l → l ≠ 0 → r.payload.floatTimeStamp ≤ l) ∧
      (∀ flt sid, f? = some flt → flt.speakerId = some sid → sid ≠ "" →
        r.payload.speakerId = sid) ∧
      (∀ flt c, f? = some flt → flt.category = some c → c ≠ "" →
        r.payload.category = c) ∧
      ∃ emb, r.payload.embedding = some emb ∧
        r.score = cosineSimilarity q emb) ∧
    (search store q k f?).Sorted scoreGe := by
  refine ⟨?_, ?_, ?_⟩
  · unfold search
    exact List.length_take_le k _
  · intro r hr
    obtain ⟨hmem, hid, hpass, hembed⟩ := mem_search hr
    refine ⟨hmem, ?_, ?_, ?_, ?_, hembed⟩
    · intro flt rng g hf h1 h2 h3
      subst hf
      exact passes_gte hpass rng g h1 h2 h3
    · intro flt rng l hf h1 h2 h3
      subst hf
      exact passes_lte hpass rng l h1 h2 h3
    · intro flt sid hf h1 h2
      subst hf
      exact passes_speaker hpass sid h1 h2
    · intro flt c hf h1 h2
      subst hf
      exact passes_category hpass c h1 h2
  · unfold search
    exact (List.sorted_insertionSort scoreGe _).sublist
      (List.take_sublist k _)

/-- Witness for C1 at a one-row store with a 1-dimensional query. -/
theorem search_spec_witness :
    (∀ e ∈ [eNeg], ∀ v, e.embedding = some v →
      v.length = ([1] : List ℚ).length) ∧
    ((search [eNeg] [1] 10 (some fGte0)).length ≤ 10 ∧
      (∀ r ∈ search [eNeg] [1] 10 (some fGte0),
        r.payload ∈ [eNeg] ∧
        (∀ flt rng g, some fGte0 = some flt →
          flt.floatTimeStamp = some rng →
          rng.gte = some g → g ≠ 0 → g ≤ r.payload.floatTimeStamp) ∧
        (∀ flt rng l, some fGte0 = some flt →
          flt.floatTimeStamp = some rng →
          rng.lte = some l → l ≠ 0 → r.payload.floatTimeStamp ≤ l) ∧
        (∀ flt sid, some fGte0 = some flt → flt.speakerId = some sid →
          sid ≠ "" → r.payload.speakerId = sid) ∧
        (∀ flt c, some fGte0 = some flt → flt.category = some c →
          c ≠ "" → r.payload.category = c) ∧
        ∃ emb, r.payload.embedding = some emb ∧
          r.score = cosineSimilarity [1] emb) ∧
      (search [eNeg] [1] 10 (some fGte0)).Sorted scoreGe) := by
  have hdim : ∀ e ∈ [eNeg], ∀ v, e.embedding = some v →
      v.length = ([1] : List ℚ).length := by
    intro e he v hv
    obtain rfl := List.mem_singleton.mp he
    rw [show eNeg.embedding = some [1] from rfl] at hv
    obtain rfl := Option.some.inj hv
    rfl
  exact ⟨hdim, search_spec [eNeg] [1] 10 (some fGte0) hdim⟩

/-- Cosine similarity of the unit one-dimensional vector with
itself. -/
theorem cosOne : cosineSimilarity [1] [1] = 1 := by
  unfold cosineSimilarity normSq dotProduct
  norm_num [Real.sqrt_one]

/-- The search of the C1 counterexample evaluates to a single hit. -/
theorem searchNeg_eval :
    search [eNeg] [1] 10 (some fGte0) = [⟨"a", 1, eNeg⟩] := by
  unfold search
  rw [show List.filterMap _ [eNeg] = [⟨"a", cosineSimilarity [1] [1], eNeg⟩]
    from by
      rw [List.filterMap_cons]
      simp only [show eNeg.embedding = some [1] from rfl]
      rw [if_pos (by decide : passesFilters (some fGte0) eNeg = true)]
      rfl]
  rw [cosOne]
  rfl

/-- C1 counterexample.  With the supplied filter `gte = 0`, the falsy
bound is skipped, so a row dated before the epoch (floatTimeStamp -1,
violating the inclusive range) is still returned. -/
theorem search_ignores_zero_gte :
    ∃ r ∈ search [eNeg] [1] 10 (some fGte0),
      r.payload.floatTimeStamp < 0 := by
  refine ⟨⟨"a", 1, eNeg⟩, ?_, ?_⟩
  · rw [searchNeg_eval]
    exact List.mem_singleton_self _
  · decide

/-! ## Consolidation phase 1: self-exclusion (claim C4) -/

/-- Fold worker for C4: once every remaining snapshot entry has an
embedding, each processed row ends up with a queue that never cites
its own id. -/
theorem phase1_fold_selfFree (store : List MemoryEntry) (k n : ℕ)
    (hemb : ∀ e ∈ store, e.embedding.isSome) :
    ∀ (l : List MemoryEntry) (s : List MemoryEntry),
      (∀ x ∈ l, x ∈ store) →
      (∀ r ∈ s, SelfFree r ∨ r.id ∈ l.map (·.id)) →
      ∀ r ∈ List.foldl (phase1Step k n) s l, SelfFree r := by
  intro l
  induction l with
  | nil =>
    intro s _ hinv r hr
    rcases hinv r hr with h | h
    · exact h
    · simp at h
  | cons x l' ih =>
    intro s hsub hinv
    rw [List.foldl_cons]
    refine ih _ (fun y hy => hsub y (by simp [hy])) ?_
    intro r hr
    have hx : x ∈ store := hsub x (by simp)
    obtain ⟨embx, hembx⟩ := Option.isSome_iff_exists.mp (hemb x hx)
    unfold phase1Step at hr
    simp only [hembx] at hr
    unfold updateEntry at hr
    rw [List.mem_map] at hr
    obtain ⟨r0, hr0, hrEq⟩ := hr
    by_cases hid : r0.id = x.id
    · subst hrEq
      rw [if_pos hid]
      refine Or.inl ?_
      intro c hc
      obtain ⟨hhit, hmemTake, rfl⟩ := List.mem_map.mp hc
      have h2 := (List.take_sublist n _).subset hmemTake
      have h3 := (List.mem_filter.mp h2).2
      simp only [decide_eq_true_eq] at h3
      rw [applyPatch_id, hid]
      exact h3
    · subst hrEq
      rw [if_neg hid]
      rcases hinv r0 hr0 with h | h
      · exact Or.inl h
      · rw [List.map_cons] at h
        rcases List.mem_cons.mp h with h4 | h4
        · exact absurd h4 hid
        · exact Or.inr h4

/-- C4.  After phase 1 completes on a store whose rows all carry
embeddings of the query dimension, no row of the resulting store has
an update queue citing its own id. -/
theorem phase1_self_exclusion (store : List MemoryEntry)
    (topK keepTopN : ℕ) (d : ℕ)
    (hemb : ∀ e ∈ store, e.embedding.isSome)
    (hdim : ∀ e ∈ store, ∀ v, e.embedding = some v → v.length = d) :
    ∀ r ∈ constructUpdateQueueAllEntries store topK keepTopN,
      ∀ c ∈ r.updateQueue, c.id ≠ r.id := by
  intro r hr
  exact phase1_fold_selfFree store topK keepTopN hemb store store
    (fun x hx => hx)
    (fun r0 hr0 => Or.inr (List.mem_map_of_mem _ hr0)) r hr

/-- Witness for C4 at the two-row store. -/
theorem phase1_self_exclusion_witness :
    (∀ e ∈ [cA, cB], e.embedding.isSome) ∧
    (∀ e ∈ [cA, cB], ∀ v, e.embedding = some v → v.length = 1) ∧
    (∀ r ∈ constructUpdateQueueAllEntries [cA, cB] 20 10,
      ∀ c ∈ r.updateQueue, c.id ≠ r.id) := by
  have h1 : ∀ e ∈ [cA, cB], e.embedding.isSome := by decide
  have h2 : ∀ e ∈ [cA, cB], ∀ v, e.embedding = some v → v.length = 1 := by
    intro e he v hv
    rcases List.mem_cons.mp he with rfl | he2
    · rw [show cA.embedding = some [1] from rfl] at hv
      obtain rfl := Option.some.inj hv
      rfl
    · obtain rfl := List.mem_singleton.mp he2
      rw [show cB.embedding = some [1] from rfl] at hv
      obtain rfl := Option.some.inj hv
      rfl
  exact ⟨h1, h2, phase1_self_exclusion [cA, cB] 20 10 1 h1 h2⟩

/-! ## Consolidation phase 1: temporal directionality (claim C2) -/

theorem keyOf_applyPatch (p : UpdatePatch) (r : MemoryEntry)
    (h : p.embedding = none) : keyOf (applyPatch p r) = keyOf r := by
  simp [keyOf, applyPatch, h]

theorem updateEntry_map_keyOf (s : List MemoryEntry) (x : String)
    (p : UpdatePatch) (h : p.embedding = none) :
    (updateEntry s x p).map keyOf = s.map keyOf := by
  unfold updateEntry
  rw [List.map_map]
  refine List.map_congr_left ?_
  intro r _
  by_cases hr : r.id = x <;> simp [hr, Function.comp, keyOf_applyPatch p r h]

theorem phase1Step_map_keyOf (k n : ℕ) (s : List MemoryEntry)
    (e : MemoryEntry) :
    (phase1Step k n s e).map keyOf = s.map keyOf := by
  unfold phase1Step
  cases hemb : e.embedding with
  | none => rfl
  | some emb =>
    simp only [hemb]
    exact updateEntry_map_keyOf s e.id _ rfl

theorem foldl_phase1_map_keyOf (k n : ℕ) :
    ∀ (l : List MemoryEntry) (s : List MemoryEntry),
      (List.foldl (phase1Step k n) s l).map keyOf = s.map keyOf := by
  intro l
  induction l with
  | nil => intro s; rfl
  | cons x l' ih =>
    intro s
    rw [List.foldl_cons, ih, phase1Step_map_keyOf]

theorem aligned_mem_of_key {base s : List MemoryEntry}
    (hal : base.map keyOf = s.map keyOf) {e : MemoryEntry}
    (he : e ∈ base) : ∃ e2 ∈ s, keyOf e2 = keyOf e := by
  have h1 : keyOf e ∈ s.map keyOf := by
    rw [← hal]
    exact List.mem_map_of_mem _ he
  obtain ⟨e2, he2, hk⟩ := List.mem_map.mp h1
  exact ⟨e2, he2, hk⟩

/-- Under nodup ids, a row of an aligned store that shares the id of a
snapshot entry also shares its timestamp and embedding. -/
theorem key_eq_of_aligned {base s : List MemoryEntry}
    (hnd : (base.map (·.id)).Nodup) (hal : base.map keyOf = s.map keyOf)
    {x r : MemoryEntry} (hx : x ∈ base) (hr : r ∈ s)
    (hid : r.id = x.id) : keyOf r = keyOf x := by
  have h1 : keyOf r ∈ base.map keyOf := by
    rw [hal]
    exact List.mem_map_of_mem _ hr
  obtain ⟨e, he, hke⟩ := List.mem_map.mp h1
  have hide : e.id = x.id := by
    have h2 : (keyOf e).1 = (keyOf r).1 := by rw [hke]
    simp only [keyOf] at h2
    rw [h2, hid]
  have hex : e = x := List.inj_on_of_nodup_map hnd he hx hide
  rw [← hke, hex]

/-- Every hit of the phase-1 search is a stored row, and when the
`lte` bound is truthy the hit is not newer than the bound. -/
theorem search_lte_bound {s : List MemoryEntry} {q : List ℚ} {k : ℕ}
    {ts : ℚ} {h : SearchResult}
    (hh : h ∈ search s q k
      (some { floatTimeStamp := some { lte := some ts } })) :
    h.payload ∈ s ∧ h.id = h.payload.id ∧
      (ts ≠ 0 → h.payload.floatTimeStamp ≤ ts) := by
  obtain ⟨hmem, hid, hpass, -⟩ := mem_search hh
  exact ⟨hmem, hid, fun h3 => passes_lte hpass _ ts rfl rfl h3⟩

/-- Fold worker for C2: with nodup ids and all embeddings present,
every row of the final phase-1 store is temporally sound relative to
the initial store whenever its own timestamp is truthy. -/
theorem phase1_fold_good (store : List MemoryEntry) (k n : ℕ)
    (hnd : (store.map (·.id)).Nodup)
    (hemb : ∀ e ∈ store, e.embedding.isSome) :
    ∀ (l : List MemoryEntry) (s : List MemoryEntry),
      (∀ x ∈ l, x ∈ store) →
      store.map keyOf = s.map keyOf →
      (∀ r ∈ s, QueueGood store r ∨ r.id ∈ l.map (·.id)) →
      ∀ r ∈ List.foldl (phase1Step k n) s l, QueueGood store r := by
  intro l
  induction l with
  | nil =>
    intro s _ _ hinv r hr
    rcases hinv r hr with h | h
    · exact h
    · simp at h
  | cons x l' ih =>
    intro s hsub hal hinv
    rw [List.foldl_cons]
    refine ih _ (fun y hy => hsub y (by simp [hy])) ?_ ?_
    · rw [phase1Step_map_keyOf]
      exact hal
    · intro r hr
      have hx : x ∈ store := hsub x (by simp)
      obtain ⟨embx, hembx⟩ := Option.isSome_iff_exists.mp (hemb x hx)
      unfold phase1Step at hr
      simp only [hembx] at hr
      unfold updateEntry at hr
      rw [List.mem_map] at hr
      obtain ⟨r0, hr0, hrEq⟩ := hr
      by_cases hid : r0.id = x.id
      · subst hrEq
        rw [if_pos hid]
        refine Or.inl ?_
        intro hts c hc
        have hkey : keyOf r0 = keyOf x := key_eq_of_aligned hnd hal hx hr0 hid
        have hts0 : r0.floatTimeStamp = x.floatTimeStamp :=
          congrArg (fun p => p.2.1) hkey
        obtain ⟨hhit, hmemTake, rfl⟩ := List.mem_map.mp hc
        have h2 := (List.take_sublist n _).subset hmemTake
        have h3 := List.mem_of_mem_filter h2
        obtain ⟨hpay, hpid, hple⟩ := search_lte_bound h3
        have hxts : x.floatTimeStamp ≠ 0 := by
          rw [← hts0]
          exact hts
        have hle := hple hxts
        have hpay2 : ∃ e ∈ store, keyOf e = keyOf hhit.payload := by
          have h4 : keyOf hhit.payload ∈ store.map keyOf := by
            rw [hal]
            exact List.mem_map_of_mem _ hpay
          obtain ⟨e, he, hk⟩ := List.mem_map.mp h4
          exact ⟨e, he, hk⟩
        obtain ⟨e, he, hk⟩ := hpay2
        refine ⟨e, he, ?_, ?_⟩
        · show e.id = hhit.id
          have h5 : e.id = hhit.payload.id := congrArg (fun p => p.1) hk
          rw [h5, hpid]
        · show e.floatTimeStamp ≤ r0.floatTimeStamp
          have h6 : e.floatTimeStamp = hhit.payload.floatTimeStamp :=
            congrArg (fun p => p.2.1) hk
          rw [h6, hts0]
          exact hle
      · subst hrEq
        rw [if_neg hid]
        rcases hinv r0 hr0 with h | h
        · exact Or.inl h
        · rw [List.map_cons] at h
          rcases List.mem_cons.mp h with h4 | h4
          · exact absurd h4 hid
          · exact Or.inr h4

/-- C2 (amended).  After phase 1 completes on a well-formed store
(nodup ids, embeddings of one dimension on every row), every record
`r` whose `floatTimeStamp` is truthy (nonzero) has an update queue all
of whose candidate ids identify records no newer than `r`.  A zero
timestamp makes the `lte` bound falsy, disabling the temporal
filter. -/
theorem phase1_temporal (store : List MemoryEntry) (topK keepTopN d : ℕ)
    (hnd : (store.map (·.id)).Nodup)
    (hemb : ∀ e ∈ store, e.embedding.isSome)
    (hdim : ∀ e ∈ store, ∀ v, e.embedding = some v → v.length = d) :
    ∀ r ∈ constructUpdateQueueAllEntries store topK keepTopN,
      r.floatTimeStamp ≠ 0 →
      ∀ c ∈ r.updateQueue,
        ∃ e ∈ constructUpdateQueueAllEntries store topK keepTopN,
          e.id = c.id ∧ e.floatTimeStamp ≤ r.floatTimeStamp := by
  intro r hr hts c hc
  have hgood := phase1_fold_good store topK keepTopN hnd hemb store store
    (fun x hx => hx) rfl
    (fun r0 hr0 => Or.inr (List.mem_map_of_mem _ hr0)) r hr
  obtain ⟨e, he, heid, hele⟩ := hgood hts c hc
  have hal : store.map keyOf =
      (constructUpdateQueueAllEntries store topK keepTopN).map keyOf :=
    (foldl_phase1_map_keyOf topK keepTopN store store).symm
  obtain ⟨e2, he2, hk⟩ := aligned_mem_of_key hal he
  refine ⟨e2, he2, ?_, ?_⟩
  · rw [show e2.id = e.id from congrArg (fun p => p.1) hk]
    exact heid
  · rw [show e2.floatTimeStamp = e.floatTimeStamp from
      congrArg (fun p => p.2.1) hk]
    exact hele

/-- Witness for C2 at the two-row store. -/
theorem phase1_temporal_witness :
    ((([cA, cB]).map (·.id)).Nodup ∧
      (∀ e ∈ [cA, cB], e.embedding.isSome) ∧
      (∀ e ∈ [cA, cB], ∀ v, e.embedding = some v → v.length = 1)) ∧
    (∀ r ∈ constructUpdateQueueAllEntries [cA, cB] 20 10,
      r.floatTimeStamp ≠ 0 →
      ∀ c ∈ r.updateQueue,
        ∃ e ∈ constructUpdateQueueAllEntries [cA, cB] 20 10,
          e.id = c.id ∧ e.floatTimeStamp ≤ r.floatTimeStamp) := by
  have h0 : (([cA, cB]).map (·.id)).Nodup := by decide
  have h1 : ∀ e ∈ [cA, cB], e.embedding.isSome := by decide
  have h2 : ∀ e ∈ [cA, cB], ∀ v, e.embedding = some v → v.length = 1 := by
    intro e he v hv
    rcases List.mem_cons.mp he with rfl | he2
    · rw [show cA.embedding = some [1] from rfl] at hv
      obtain rfl := Option.some.inj hv
      rfl
    · obtain rfl := List.mem_singleton.mp he2
      rw [show cB.embedding = some [1] from rfl] at hv
      obtain rfl := Option.some.inj hv
      rfl
  exact ⟨⟨h0, h1, h2⟩, phase1_temporal [cA, cB] 20 10 1 h0 h1 h2⟩

/-- Evaluation of the phase-1 search for the epoch-dated row: the
`lte = 0` bound is falsy, so both rows pass the filter. -/
theorem searchA_eval :
    search [cA, cB] [1] 20
      (some { floatTimeStamp := some { lte := some (0 : ℚ) } }) =
      [⟨"a", 1, cA⟩, ⟨"b", 1, cB⟩] := by
  unfold search
  rw [show List.filterMap _ [cA, cB] =
      [⟨"a", cosineSimilarity [1] [1], cA⟩,
        ⟨"b", cosineSimilarity [1] [1], cB⟩] from by
    rw [List.filterMap_cons, List.filterMap_cons, List.filterMap_nil]
    simp only [show cA.embedding = some [1] from rfl,
      show cB.embedding = some [1] from rfl]
    rw [if_pos (by decide), if_pos (by decide)]
    rfl]
  rw [cosOne]
  show List.take 20 (List.orderedInsert scoreGe ⟨"a", 1, cA⟩
    (List.orderedInsert scoreGe ⟨"b", 1, cB⟩ [])) = _
  rw [List.orderedInsert, List.orderedInsert,
    if_pos (show scoreGe ⟨"a", 1, cA⟩ ⟨"b", 1, cB⟩ from le_refl (1 : ℝ))]
  rfl

/-- Evaluation of the phase-1 search for the newer row: its truthy
`lte = 100` bound admits both rows. -/
theorem searchB_eval :
    search [cA1, cB] [1] 20
      (some { floatTimeStamp := some { lte := some (100 : ℚ) } }) =
      [⟨"a", 1, cA1⟩, ⟨"b", 1, cB⟩] := by
  unfold search
  rw [show List.filterMap _ [cA1, cB] =
      [⟨"a", cosineSimilarity [1] [1], cA1⟩,
        ⟨"b", cosineSimilarity [1] [1], cB⟩] from by
    rw [List.filterMap_cons, List.filterMap_cons, List.filterMap_nil]
    simp only [show cA1.embedding = some [1] from rfl,
      show cB.embedding = some [1] from rfl]
    rw [if_pos (by decide), if_pos (by decide)]
    rfl]
  rw [cosOne]
  show List.take 20 (List.orderedInsert scoreGe ⟨"a", 1, cA1⟩
    (List.orderedInsert scoreGe ⟨"b", 1, cB⟩ [])) = _
  rw [List.orderedInsert, List.orderedInsert,
    if_pos (show scoreGe ⟨"a", 1, cA1⟩ ⟨"b", 1, cB⟩ from le_refl (1 : ℝ))]
  rfl

/-- First phase-1 iteration of the counterexample: the epoch-dated row
receives a queue citing the newer row. -/
theorem stepA_eval : phase1Step 20 10 [cA, cB] cA = [cA1, cB] := by
  unfold phase1Step
  simp only [show cA.embedding = some [1] from rfl]
  rw [show cA.floatTimeStamp = (0 : ℚ) from rfl, searchA_eval]
  rfl

/-- Second phase-1 iteration of the counterexample. -/
theorem stepB_eval : phase1Step 20 10 [cA1, cB] cB = [cA1, cB1] := by
  unfold phase1Step
  simp only [show cB.embedding = some [1] from rfl]
  rw [show cB.floatTimeStamp = (100 : ℚ) from rfl, searchB_eval]
  rfl

/-- The full phase-1 run of the counterexample store. -/
theorem phase1_cex_eval :
    constructUpdateQueueAllEntries [cA, cB] 20 10 = [cA1, cB1] := by
  unfold constructUpdateQueueAllEntries
  rw [List.foldl_cons, stepA_eval, List.foldl_cons, stepB_eval,
    List.foldl_nil]

/-- C2 counterexample.  On the two-row store where row `"a"` is dated
exactly at the epoch (floatTimeStamp 0 is falsy, so the phase-1 `lte`
filter is dropped for it), the completed phase 1 leaves `"a"` with a
queue citing row `"b"` whose floatTimeStamp 100 exceeds 0: temporal
directionality fails as stated. -/
theorem phase1_zero_ts_cex :
    ¬(∀ r ∈ constructUpdateQueueAllEntries [cA, cB] 20 10,
        ∀ c ∈ r.updateQueue,
          ∃ e ∈ constructUpdateQueueAllEntries [cA, cB] 20 10,
            e.id = c.id ∧ e.floatTimeStamp ≤ r.floatTimeStamp) := by
  intro h
  rw [phase1_cex_eval] at h
  obtain ⟨e, he, hid, hle⟩ :=
    h cA1 (by simp) ⟨"b", 1⟩ (by
      show UpdateCandidate.mk "b" 1 ∈ cA1.updateQueue
      rw [show cA1.updateQueue = [⟨"b", 1⟩] from rfl]
      exact List.mem_singleton_self _)
  rcases List.mem_cons.mp he with rfl | he2
  · exact absurd hid (by decide)
  · obtain rfl := List.mem_singleton.mp he2
    revert hle
    decide

/-! ## Per-call sequence numbers and fact binding (claim C10) -/

theorem assignSeqFrom_map :
    ∀ (msgs : List NormalizedMessage) (i : ℕ),
      (assignSeqFrom i msgs).map (·.sequenceNumber) =
        (List.range' i msgs.length).map some := by
  intro msgs
  induction msgs with
  | nil => intro i; rfl
  | cons m rest ih =>
    intro i
    rw [show assignSeqFrom i (m :: rest) =
        { m with sequenceNumber := some i } :: assignSeqFrom (i + 1) rest
      from rfl]
    rw [List.map_cons, List.length_cons, List.range'_succ, List.map_cons,
      ih (i + 1)]

/-- Each call numbers its own messages from 0 in delivery order. -/
theorem assignSeq_map (msgs : List NormalizedMessage) :
    (assignSequenceNumbers msgs).map (·.sequenceNumber) =
      (List.range msgs.length).map some := by
  rw [List.range_eq_range']
  exact assignSeqFrom_map msgs 0

theorem find?_filter_and {α : Type _} (xs : List α) (p q : α → Bool) :
    (xs.filter p).find? q = xs.find? (fun a => p a && q a) := by
  rw [List.find?_filter]
  congr 1
  funext a
  cases hp : p a <;> cases hq : q a <;> simp [hp, hq]

/-- C10 (amended).  On a triggering `addMemory` call: (1) the call
assigns sequence numbers 0,1,2,... to just the messages of this call
before buffering them, so buffered messages from several calls can
share a `floor(sequenceNumber / 2)` source id; (2) the call processes
the role-filtered buffer and synthesizes the records from it; and (3)
for every fact, the source lookup over the role-filtered buffer picks
the first message, in buffer order, that passes the role filter and
whose `floor(sequenceNumber / 2)` equals the cited source id. -/
theorem addMemory_binding (cfg : Config) (or : Oracles)
    (msgs : List Message) (forceExtract : Bool) (st : EngineState)
    (m' : List (String × ℤ)) (norm : List NormalizedMessage)
    (hok : normalizeMessages or.parse 500 st.normMap msgs = (m', .ok norm))
    (htrig : (forceExtract ||
      decide (10 ≤ (st.buffer ++ assignSequenceNumbers norm).length)) =
        true)
    (hne : (filterMessagesByRole cfg.messagesUse
      (st.buffer ++ assignSequenceNumbers norm)).isEmpty = false)
    (hmeta : cfg.metadataGenerate = true) :
    ((assignSequenceNumbers norm).map (·.sequenceNumber) =
      (List.range norm.length).map some) ∧
    (addMemory cfg or msgs forceExtract st =
      ({ buffer := []
         store := (createMemoryEntries or 0
           (or.extract (filterMessagesByRole cfg.messagesUse
             (st.buffer ++ assignSequenceNumbers norm)))
           (filterMessagesByRole cfg.messagesUse
             (st.buffer ++ assignSequenceNumbers norm)) st.store).1
         normMap := m' },
        .ok (createMemoryEntries or 0
          (or.extract (filterMessagesByRole cfg.messagesUse
            (st.buffer ++ assignSequenceNumbers norm)))
          (filterMessagesByRole cfg.messagesUse
            (st.buffer ++ assignSequenceNumbers norm)) st.store).2)) ∧
    (∀ fact : ExtractedFact,
      (filterMessagesByRole cfg.messagesUse
        (st.buffer ++ assignSequenceNumbers norm)).find?
          (sourceMatches fact) =
        bindsFirstFiltered cfg.messagesUse
          (st.buffer ++ assignSequenceNumbers norm) fact) := by
  refine ⟨assignSeq_map norm, ?_, ?_⟩
  · unfold addMemory
    rw [hok]
    simp only [htrig, hne, hmeta, Bool.false_eq_true, if_false, if_true]
  · intro fact
    unfold filterMessagesByRole bindsFirstFiltered
    exact find?_filter_and _ _ _

/-- Witness for C10 at the two-call scenario. -/
theorem addMemory_binding_witness :
    ((assignSequenceNumbers [userRaw]).map (·.sequenceNumber) =
      (List.range ([userRaw] : List NormalizedMessage).length).map some) ∧
    ((filterMessagesByRole cfg10.messagesUse
        (st1.buffer ++ assignSequenceNumbers [userRaw])).find?
          (sourceMatches ⟨0, "f"⟩) =
      bindsFirstFiltered cfg10.messagesUse
        (st1.buffer ++ assignSequenceNumbers [userRaw]) ⟨0, "f"⟩) := by
  have h := addMemory_binding cfg10 or10 [userMsg] true st1
    [("M2", 2000), ("M1", 1000)] [userRaw] rfl rfl rfl rfl
  exact ⟨h.1, h.2.2 ⟨0, "f"⟩⟩

/-- C10 counterexample.  After buffering a system message (sequence
number 0) and then a user message from a second call (sequence number
restarts at 0), the triggering call binds the fact with source id 0 to
the user message (the created record carries speaker `"u"`), while the
first buffered message with `floor(sequenceNumber / 2) = 0` in buffer
order is the system message with speaker `"s"`: synthesis does not
bind to the first buffered message, only to the first one passing the
role filter. -/
theorem seq_binding_cex :
    st1.buffer = [sysN] ∧
    (normalizeMessages or10.parse 500 st1.normMap [userMsg]).2 =
      .ok [userRaw] ∧
    assignSequenceNumbers [userRaw] = [userN] ∧
    (([sysN] ++ [userN]).find? (sourceMatches ⟨0, "f"⟩)).map
      (·.speakerId) = some "s" ∧
    st2.store.map (·.speakerId) = ["u"] :=
  ⟨rfl, rfl, rfl, rfl, rfl⟩

end LiteMem
